import Mathlib

/-
Verification of the record-control core in `internal-model.js`
(addon, -record-data-private, system, model).

The state machine part (`transitionTo`, the `TransitionChainMap` cache and
`send`) is embedded over an abstract hierarchical state tree: the concrete
state graph (`RootState`) lives in a separate module, but every claim about
the walk is universally quantified over the tree, so the tree is plain input
data here.  A state is addressed by its path below the root (the JS
`root.loaded.saved` is the path `["loaded", "saved"]`).

The control-block part (`InternalModel`) is embedded as a structure holding
the fields the claims mention; calls into external collaborators (the facade,
model data, the store, the run loop) are recorded as an `Effect` trace, and
values the collaborators return (such as `removeUnloadedInternalModel`'s
result) enter as explicit oracle arguments.
-/

namespace EmberData

/-- Hook flags of one node of the lifecycle state tree: whether the JS state
object defines an `enter`, `exit` and `setup` hook. -/
structure SDef where
  hasEnter : Bool
  hasExit : Bool
  hasSetup : Bool
deriving DecidableEq

/-- The static hierarchical state tree: hook flags at this node plus named
child states.  Immutable for the process lifetime. -/
inductive Tree where
  | node : SDef → List (String × Tree) → Tree

/-- Hook flags of the root node of a tree. -/
def Tree.sdef : Tree → SDef
  | .node d _ => d

/-- Child list of the root node of a tree. -/
def Tree.children : Tree → List (String × Tree)
  | .node _ c => c

/-- Property access `state[name]` restricted to child states: the first child
with the given name, if any. -/
def Tree.child (t : Tree) (s : String) : Option Tree :=
  (t.children.find? (fun p => p.1 == s)).map (fun p => p.2)

/-- Resolve a dotted path below a node to the node it addresses. -/
def lookupPath (t : Tree) : List String → Option Tree
  | [] => some t
  | s :: rest =>
    match t.child s with
    | none => none
    | some c => lookupPath c rest

/-- Whether the node at path `p` defines an `exit` hook. -/
def exitFlagAt (t : Tree) (p : List String) : Bool :=
  match lookupPath t p with
  | some n => n.sdef.hasExit
  | none => false

/-- Whether the node at path `p` defines an `enter` hook. -/
def enterFlagAt (t : Tree) (p : List String) : Bool :=
  match lookupPath t p with
  | some n => n.sdef.hasEnter
  | none => false

/-- Whether the node at path `p` defines a `setup` hook. -/
def setupFlagAt (t : Tree) (p : List String) : Bool :=
  match lookupPath t p with
  | some n => n.sdef.hasSetup
  | none => false

/-- Whether the node at path `p` has a child state named `s` (the JS test
`!state[pivotName]` of the climb loop). -/
def hasChildAt (t : Tree) (p : List String) (s : String) : Bool :=
  match lookupPath t p with
  | some n => (n.child s).isSome
  | none => false

/-- The climb loop of `transitionTo` (the `do … while (!state[pivotName])`):
starting from the current state, run its `exit` hook (when defined) and step
to the parent, until the parent owns a child named `pivot`.  Returns the
paths whose `exit` hook ran, top of stack first, and the pivot ancestor's
path.  `none` models the JS crash of running past the root.  The fuel
argument is the length of the current path, which bounds the number of
parent steps. -/
def climbAux (t : Tree) : Nat → List String → String → Option (List (List String) × List String)
  | 0, _, _ => none
  | _ + 1, [], _ => none
  | n + 1, s :: rest, pivot =>
    match lookupPath t (s :: rest) with
    | none => none
    | some node =>
      let exits := if node.sdef.hasExit then [s :: rest] else []
      let parent := (s :: rest).dropLast
      match lookupPath t parent with
      | none => none
      | some pnode =>
        if (pnode.child pivot).isSome then
          some (exits, parent)
        else
          match climbAux t n parent pivot with
          | none => none
          | some (es, anc) => some (exits ++ es, anc)

/-- The climb loop of `transitionTo` from the state at path `cur`. -/
def climb (t : Tree) (cur : List String) (pivot : String) :
    Option (List (List String) × List String) :=
  climbAux t cur.length cur pivot

/-- One entry of the `TransitionChainMap`: the paths of the visited states
defining `enter`, the paths of the visited states defining `setup` (each in
root-to-leaf order), and the terminal state reached. -/
structure ChainEntry where
  enters : List (List String)
  setups : List (List String)
  state : List String
deriving DecidableEq

/-- The descent loop of `transitionTo`: from the pivot ancestor at path `p`,
follow the target path segments, collecting every visited node that defines
`enter` and every one that defines `setup`, in visit (root-to-leaf) order.
`none` models the JS crash on a missing child. -/
def descend (t : Tree) : List String → List String → Option ChainEntry
  | p, [] => some { enters := [], setups := [], state := p }
  | p, s :: rest =>
    match lookupPath t (p ++ [s]) with
    | none => none
    | some node =>
      match descend t (p ++ [s]) rest with
      | none => none
      | some e =>
        some { enters := (if node.sdef.hasEnter then [p ++ [s]] else []) ++ e.enters,
               setups := (if node.sdef.hasSetup then [p ++ [s]] else []) ++ e.setups,
               state := e.state }

/-- Observable events of one `transitionTo` call, in execution order. -/
inductive TraceEvent where
  | exitHook (path : List String)
  | enterHook (path : List String)
  | setCurrentState (path : List String)
  | setRecordState (path : List String)
  | setupHook (path : List String)
  | updateRecordArrays
deriving DecidableEq

/-- The tail of a `transitionTo` call after the climb: replay the collected
`enter` hooks, assign `currentState` (propagated to the record when one is
materialized), replay the collected `setup` hooks, then
`updateRecordArrays`. -/
def buildTrace (exits : List (List String)) (e : ChainEntry) (hasRecord : Bool) :
    List TraceEvent :=
  exits.map TraceEvent.exitHook
    ++ e.enters.map TraceEvent.enterHook
    ++ [TraceEvent.setCurrentState e.state]
    ++ (if hasRecord then [TraceEvent.setRecordState e.state] else [])
    ++ e.setups.map TraceEvent.setupHook
    ++ [TraceEvent.updateRecordArrays]

/-- `InternalModel.transitionTo` without the `TransitionChainMap` cache:
climb to the pivot ancestor running `exit` hooks, walk down the target path
collecting `enter`/`setup` hooks, then replay them around the state
assignment.  Returns the event trace and the new current state.  The target
is the dotted name already split on dots (`splitOnDot`), whose head is the
pivot segment (`extractPivotName`). -/
def transitionTo (t : Tree) (cur : List String) (target : List String) (hasRecord : Bool) :
    Option (List TraceEvent × List String) :=
  match target with
  | [] => none
  | pivot :: _ =>
    match climb t cur pivot with
    | none => none
    | some (exits, anc) =>
      match descend t anc target with
      | none => none
      | some e => some (buildTrace exits e hasRecord, e.state)

/-- Lookup in the `TransitionChainMap`, keyed by the pair of the current
state's full path and the target path (the JS key string
`stateName + "->" + name`). -/
def lookupChain (cache : List ((List String × List String) × ChainEntry))
    (k : List String × List String) : Option ChainEntry :=
  (cache.find? (fun p => p.1 == k)).map (fun p => p.2)

/-- `InternalModel.transitionTo` with the `TransitionChainMap` cache: the
climb always runs; on a cache hit the stored enters/setups/terminal state are
replayed without walking down the tree, on a miss the descent runs and its
result is stored.  Returns the event trace, the new current state and the
updated cache. -/
def transitionToCached (t : Tree) (cache : List ((List String × List String) × ChainEntry))
    (cur : List String) (target : List String) (hasRecord : Bool) :
    Option (List TraceEvent × List String × List ((List String × List String) × ChainEntry)) :=
  match target with
  | [] => none
  | pivot :: _ =>
    match climb t cur pivot with
    | none => none
    | some (exits, anc) =>
      match lookupChain cache (cur, target) with
      | some e => some (buildTrace exits e hasRecord, e.state, cache)
      | none =>
        match descend t anc target with
        | none => none
        | some e =>
          some (buildTrace exits e hasRecord, e.state, ((cur, target), e) :: cache)

/-- A `TransitionChainMap` is valid when every stored entry is exactly what
the cache-free walk computes for its key: whenever the climb from the key's
current state succeeds, the descent from the resulting ancestor along the
key's target yields the stored entry. -/
def validCache (t : Tree) (cache : List ((List String × List String) × ChainEntry)) : Prop :=
  ∀ (cur target : List String) (e : ChainEntry),
    lookupChain cache (cur, target) = some e →
    ∀ (pivot : String) (rest : List String), target = pivot :: rest →
    ∀ (exits : List (List String)) (anc : List String),
      climb t cur pivot = some (exits, anc) →
      descend t anc target = some e

/-- The ancestor paths strictly between depth `k` and the current state,
current state first: the states whose `exit` hook the climb loop visits when
it stops at depth `k`. -/
def upwardPaths (cur : List String) (k : Nat) : List (List String) :=
  (List.range (cur.length - k)).map (fun i => cur.take (cur.length - i))

/-- The paths visited by the descent from `p` along the given segments, in
root-to-leaf order. -/
def descentPaths : List String → List String → List (List String)
  | _, [] => []
  | p, s :: rest => (p ++ [s]) :: descentPaths (p ++ [s]) rest

/-- A small concrete state tree shaped like the lifecycle graph, used to
instantiate the universally quantified transition theorems. -/
def sampleTree : Tree :=
  .node ⟨false, false, false⟩ [
    ("empty", .node ⟨false, false, false⟩ []),
    ("loaded", .node ⟨true, false, true⟩ [
      ("saved", .node ⟨false, true, true⟩ []),
      ("updated", .node ⟨false, true, false⟩ [
        ("uncommitted", .node ⟨true, false, true⟩ []),
        ("inFlight", .node ⟨true, true, true⟩ [])])]),
    ("deleted", .node ⟨true, false, true⟩ [
      ("saved", .node ⟨false, false, true⟩ []),
      ("uncommitted", .node ⟨true, false, true⟩ [])])]

theorem take_dropLast_of_le (l : List String) (j : Nat) (h : j ≤ l.length - 1) :
    l.dropLast.take j = l.take j := by
  rw [List.dropLast_eq_take, List.take_take, Nat.min_eq_left h]

theorem upwardPaths_last (cur : List String) (k : Nat) (h : cur.length ≤ k) :
    upwardPaths cur k = [] := by
  simp [upwardPaths, Nat.sub_eq_zero_of_le h]

theorem upwardPaths_step (cur : List String) (k : Nat) (h : k < cur.length) :
    upwardPaths cur k = cur :: upwardPaths cur.dropLast k := by
  unfold upwardPaths
  have h1 : cur.length - k = (cur.dropLast.length - k) + 1 := by
    rw [List.length_dropLast]; omega
  rw [h1, List.range_succ_eq_map, List.map_cons, List.map_map]
  refine congrArg₂ List.cons (by simp) ?_
  refine List.map_congr_left ?_
  intro i hi
  rw [List.mem_range, List.length_dropLast] at hi
  simp only [Function.comp_apply, List.length_dropLast]
  rw [take_dropLast_of_le cur (cur.length - 1 - i) (by omega)]
  congr 1
  omega

theorem climbAux_spec (t : Tree) :
    ∀ (n : Nat) (cur : List String) (pivot : String) (exits : List (List String))
      (anc : List String),
      n = cur.length →
      climbAux t n cur pivot = some (exits, anc) →
      ∃ k, k < cur.length ∧ anc = cur.take k ∧ hasChildAt t anc pivot = true ∧
        (∀ j, k < j → j < cur.length → hasChildAt t (cur.take j) pivot = false) ∧
        exits = (upwardPaths cur k).filter (fun p => exitFlagAt t p) := by
  intro n
  induction n with
  | zero =>
    intro cur pivot exits anc hn h
    simp [climbAux] at h
  | succ n ih =>
    intro cur pivot exits anc hn h
    match cur, hn with
    | [], hn => simp at hn
    | s :: rest, hn =>
      have hn' : n = rest.length := by simpa using hn
      simp only [climbAux] at h
      cases hnode : lookupPath t (s :: rest) with
      | none => rw [hnode] at h; simp at h
      | some node =>
        rw [hnode] at h
        simp only at h
        cases hpnode : lookupPath t ((s :: rest).dropLast) with
        | none => rw [hpnode] at h; simp at h
        | some pnode =>
          rw [hpnode] at h
          simp only at h
          have hdlen : ((s :: rest).dropLast).length = rest.length := by
            simp [List.length_dropLast]
          have hdeq : (s :: rest).dropLast = (s :: rest).take rest.length := by
            rw [List.dropLast_eq_take]; simp
          by_cases hpc : (pnode.child pivot).isSome = true
          · rw [if_pos hpc] at h
            injection h with h
            injection h with hexits hanc
            refine ⟨rest.length, by simp, ?_, ?_, ?_, ?_⟩
            · rw [← hanc, hdeq]
            · rw [← hanc]
              simp [hasChildAt, hpnode, hpc]
            · intro j hj1 hj2
              simp at hj2
              omega
            · rw [upwardPaths_step _ _ (by simp), upwardPaths_last _ _ (by rw [hdlen])]
              rw [← hexits]
              cases hx : node.sdef.hasExit <;> simp [List.filter_cons, exitFlagAt, hnode, hx]
          · rw [if_neg hpc] at h
            cases hrec : climbAux t n ((s :: rest).dropLast) pivot with
            | none => rw [hrec] at h; simp at h
            | some pr =>
              obtain ⟨es, anc'⟩ := pr
              rw [hrec] at h
              simp only at h
              injection h with h
              injection h with hexits hanc
              obtain ⟨k, hk, hanc', hchild', hmin', hexits'⟩ :=
                ih ((s :: rest).dropLast) pivot es anc' (by rw [hdlen, hn']) hrec
              rw [hdlen] at hk
              refine ⟨k, by simp; omega, ?_, ?_, ?_, ?_⟩
              · rw [← hanc, hanc']
                exact take_dropLast_of_le _ _ (by simp; omega)
              · rw [← hanc]; exact hchild'
              · intro j hj1 hj2
                simp at hj2
                by_cases hj3 : j < rest.length
                · rw [← take_dropLast_of_le _ _ (by simp; omega)]
                  exact hmin' j hj1 (by rw [hdlen]; omega)
                · have : j = rest.length := by omega
                  subst this
                  rw [← hdeq]
                  simp [hasChildAt, hpnode]
                  simpa using hpc
              · rw [upwardPaths_step _ _ (by simp; omega)]
                rw [← hexits, hexits']
                simp [List.filter_cons, exitFlagAt, hnode]
                cases node.sdef.hasExit <;> simp

theorem climb_spec (t : Tree) (cur : List String) (pivot : String)
    (exits : List (List String)) (anc : List String)
    (h : climb t cur pivot = some (exits, anc)) :
    ∃ k, k < cur.length ∧ anc = cur.take k ∧ hasChildAt t anc pivot = true ∧
      (∀ j, k < j → j < cur.length → hasChildAt t (cur.take j) pivot = false) ∧
      exits = (upwardPaths cur k).filter (fun p => exitFlagAt t p) :=
  climbAux_spec t cur.length cur pivot exits anc rfl h

theorem descend_spec (t : Tree) :
    ∀ (segs p : List String) (e : ChainEntry),
      descend t p segs = some e →
      e.state = p ++ segs ∧
      e.enters = (descentPaths p segs).filter (fun q => enterFlagAt t q) ∧
      e.setups = (descentPaths p segs).filter (fun q => setupFlagAt t q) := by
  intro segs
  induction segs with
  | nil =>
    intro p e h
    simp only [descend] at h
    injection h with h
    subst h
    simp [descentPaths]
  | cons s rest ih =>
    intro p e h
    simp only [descend] at h
    cases hnode : lookupPath t (p ++ [s]) with
    | none => rw [hnode] at h; simp at h
    | some node =>
      rw [hnode] at h
      simp only at h
      cases hrec : descend t (p ++ [s]) rest with
      | none => rw [hrec] at h; simp at h
      | some e' =>
        rw [hrec] at h
        simp only at h
        injection h with h
        subst h
        obtain ⟨hst, hen, hsu⟩ := ih (p ++ [s]) e' hrec
        refine ⟨?_, ?_, ?_⟩
        · simp only [hst, descentPaths, List.append_assoc, List.singleton_append]
        · simp only [descentPaths, List.filter_cons, hen, enterFlagAt, hnode]
          cases node.sdef.hasEnter <;> simp
        · simp only [descentPaths, List.filter_cons, hsu, setupFlagAt, hnode]
          cases node.sdef.hasSetup <;> simp

/-- C1: a transition first runs exit hooks from the current state upward to
the nearest ancestor owning the pivot segment, then runs the collected enter
hooks of the target path root-to-leaf, then assigns the current state to the
terminal node (propagating it to the record when one is materialized), then
runs the collected setup hooks root-to-leaf, and finally notifies the record
array manager.  `k` is the depth of the nearest ancestor of the current
state that has a child named after the pivot segment. -/
theorem transitionTo_trace_decomposition (t : Tree) (cur : List String) (pivot : String)
    (rest : List String) (hasRecord : Bool) (trace : List TraceEvent) (final : List String)
    (k : Nat) (hk : k < cur.length) (hchild : hasChildAt t (cur.take k) pivot = true)
    (hmin : ∀ j, k < j → j < cur.length → hasChildAt t (cur.take j) pivot = false)
    (h : transitionTo t cur (pivot :: rest) hasRecord = some (trace, final)) :
    final = cur.take k ++ (pivot :: rest) ∧
    trace = ((upwardPaths cur k).filter (fun p => exitFlagAt t p)).map TraceEvent.exitHook
      ++ ((descentPaths (cur.take k) (pivot :: rest)).filter
            (fun q => enterFlagAt t q)).map TraceEvent.enterHook
      ++ [TraceEvent.setCurrentState final]
      ++ (if hasRecord then [TraceEvent.setRecordState final] else [])
      ++ ((descentPaths (cur.take k) (pivot :: rest)).filter
            (fun q => setupFlagAt t q)).map TraceEvent.setupHook
      ++ [TraceEvent.updateRecordArrays] := by
  simp only [transitionTo] at h
  cases hcl : climb t cur pivot with
  | none => rw [hcl] at h; simp at h
  | some pr =>
    obtain ⟨exits, anc⟩ := pr
    rw [hcl] at h
    simp only at h
    cases hdesc : descend t anc (pivot :: rest) with
    | none => rw [hdesc] at h; simp at h
    | some e =>
      rw [hdesc] at h
      simp only at h
      injection h with h
      injection h with h1 h2
      obtain ⟨k', hk', hanc, hchild', hmin', hexits⟩ := climb_spec t cur pivot exits anc hcl
      have hkk : k = k' := by
        rcases Nat.lt_trichotomy k k' with h3 | h3 | h3
        · have := hmin k' h3 hk'
          rw [← hanc] at this
          rw [this] at hchild'
          exact absurd hchild' (by simp)
        · exact h3
        · have := hmin' k h3 hk
          rw [this] at hchild
          exact absurd hchild (by simp)
      subst hkk
      rw [hanc] at hdesc
      obtain ⟨hst, hen, hsu⟩ := descend_spec t (pivot :: rest) (cur.take k) e hdesc
      subst h1 h2
      refine ⟨hst, ?_⟩
      simp only [buildTrace, hexits, hen, hsu, hst]

theorem lookupChain_cons (k0 : List String × List String) (e0 : ChainEntry)
    (cache : List ((List String × List String) × ChainEntry)) (k : List String × List String) :
    lookupChain ((k0, e0) :: cache) k = if k0 = k then some e0 else lookupChain cache k := by
  by_cases hk : k0 = k
  · simp [lookupChain, List.find?_cons_of_pos, hk]
  · simp [lookupChain, List.find?_cons_of_neg, hk]

theorem validCache_nil (t : Tree) : validCache t [] := by
  intro cur target e h
  simp [lookupChain] at h

/-- C2: with a valid transition-chain cache, the memoized `transitionTo`
produces exactly the same event trace and terminal state as the cache-free
walk of the state tree, and the cache it leaves behind is again valid; the
memoization is observably pure. -/
theorem transitionToCached_refines (t : Tree)
    (cache : List ((List String × List String) × ChainEntry))
    (cur target : List String) (hasRecord : Bool) (hv : validCache t cache) :
    (transitionToCached t cache cur target hasRecord).map (fun r => (r.1, r.2.1)) =
      transitionTo t cur target hasRecord ∧
    ∀ tr st c', transitionToCached t cache cur target hasRecord = some (tr, st, c') →
      validCache t c' := by
  cases target with
  | nil => simp [transitionToCached, transitionTo]
  | cons pivot rest =>
    cases hcl : climb t cur pivot with
    | none => simp [transitionToCached, transitionTo, hcl]
    | some pr =>
      obtain ⟨exits, anc⟩ := pr
      cases hlk : lookupChain cache (cur, pivot :: rest) with
      | some e =>
        have hd := hv cur (pivot :: rest) e hlk pivot rest rfl exits anc hcl
        constructor
        · simp [transitionToCached, transitionTo, hcl, hlk, hd]
        · intro tr st c' h
          simp only [transitionToCached, hcl, hlk] at h
          injection h with h
          have hc : c' = cache := (congrArg (fun x => x.2.2) h).symm
          subst hc
          exact hv
      | none =>
        cases hdesc : descend t anc (pivot :: rest) with
        | none => simp [transitionToCached, transitionTo, hcl, hlk, hdesc]
        | some e =>
          constructor
          · simp [transitionToCached, transitionTo, hcl, hlk, hdesc]
          · intro tr st c' h
            simp only [transitionToCached, hcl, hlk, hdesc] at h
            injection h with h
            have hc : c' = ((cur, pivot :: rest), e) :: cache :=
              (congrArg (fun x => x.2.2) h).symm
            subst hc
            intro cur' target' e' hlk' pivot' rest' htgt exits' anc' hcl'
            rw [lookupChain_cons] at hlk'
            by_cases hkey : ((cur, pivot :: rest) : List String × List String) = (cur', target')
            · rw [if_pos hkey] at hlk'
              injection hkey with hkc hkt
              injection hlk' with hle
              subst hkc
              rw [← hkt] at htgt
              injection htgt with hpv hrs
              subst hpv
              rw [hcl] at hcl'
              injection hcl' with hcl'
              injection hcl' with hex han
              rw [← hkt, ← han, ← hle]
              exact hdesc
            · rw [if_neg hkey] at hlk'
              exact hv cur' target' e' hlk' pivot' rest' htgt exits' anc' hcl'

/-- Witness for the C1 theorem at a concrete transition on `sampleTree`. -/
theorem transitionTo_trace_decomposition_witness :
    (["deleted", "uncommitted"] : List String) =
      List.take 0 ["loaded", "updated", "uncommitted"] ++ ["deleted", "uncommitted"] ∧
    ([TraceEvent.exitHook ["loaded", "updated"],
      TraceEvent.enterHook ["deleted"], TraceEvent.enterHook ["deleted", "uncommitted"],
      TraceEvent.setCurrentState ["deleted", "uncommitted"],
      TraceEvent.setRecordState ["deleted", "uncommitted"],
      TraceEvent.setupHook ["deleted"], TraceEvent.setupHook ["deleted", "uncommitted"],
      TraceEvent.updateRecordArrays] : List TraceEvent) =
      ((upwardPaths ["loaded", "updated", "uncommitted"] 0).filter
          (fun p => exitFlagAt sampleTree p)).map TraceEvent.exitHook
        ++ ((descentPaths (List.take 0 ["loaded", "updated", "uncommitted"])
              ["deleted", "uncommitted"]).filter
              (fun q => enterFlagAt sampleTree q)).map TraceEvent.enterHook
        ++ [TraceEvent.setCurrentState ["deleted", "uncommitted"]]
        ++ (if true then [TraceEvent.setRecordState ["deleted", "uncommitted"]] else [])
        ++ ((descentPaths (List.take 0 ["loaded", "updated", "uncommitted"])
              ["deleted", "uncommitted"]).filter
              (fun q => setupFlagAt sampleTree q)).map TraceEvent.setupHook
        ++ [TraceEvent.updateRecordArrays] :=
  transitionTo_trace_decomposition sampleTree ["loaded", "updated", "uncommitted"] "deleted"
    ["uncommitted"] true _ _ 0 (by decide) (by rfl)
    (by intro j h1 h2
        have h3 : j < 3 := by simpa using h2
        interval_cases j <;> rfl) rfl

/-- Witness for the C2 theorem: the empty cache is valid, and the memoized
transition agrees with the plain one on a concrete transition. -/
theorem transitionToCached_refines_witness :
    (transitionToCached sampleTree [] ["loaded", "updated", "uncommitted"]
        ["deleted", "uncommitted"] true).map (fun r => (r.1, r.2.1)) =
      transitionTo sampleTree ["loaded", "updated", "uncommitted"]
        ["deleted", "uncommitted"] true :=
  (transitionToCached_refines sampleTree [] ["loaded", "updated", "uncommitted"]
    ["deleted", "uncommitted"] true (validCache_nil sampleTree)).1

/-- JS object property read `obj[key]` over the association lists that model
the `Object.create(null)` caches of the control block.  Values are opaque
handles (to many-arrays, promise proxies, handler functions). -/
def getKey : List (String × Nat) → String → Option Nat
  | [], _ => none
  | p :: rest, k => if p.1 = k then some p.2 else getKey rest k

/-- Whether a cache object has the property `key`. -/
def hasKey (l : List (String × Nat)) (k : String) : Bool :=
  (getKey l k).isSome

/-- JS `delete obj[key]`. -/
def delKey : List (String × Nat) → String → List (String × Nat)
  | [], _ => []
  | p :: rest, k => if p.1 = k then delKey rest k else p :: delKey rest k

/-- JS `obj[key] = v`. -/
def setKey (l : List (String × Nat)) (k : String) (v : Nat) : List (String × Nat) :=
  (k, v) :: delKey l k

/-- Copy every property of `src` onto `dst`: the `forEach` loop of
`dematerializeRecord` that moves the many-array cache into the retained
cache. -/
def moveAll (src dst : List (String × Nat)) : List (String × Nat) :=
  src.foldl (fun acc p => setKey acc p.1 p.2) dst

/-- The message built by `InternalModel._unhandledEvent` before it is thrown:
the event name, the record description (`String(this)`), the current state
name and, when the context is not `undefined`, its `inspect` rendering
(taken here as the given string). -/
def unhandledEventMessage (selfStr stateName name : String) (context : Option String) : String :=
  "Attempted to handle event `" ++ name ++ "` " ++ "on " ++ selfStr ++ " while in state "
    ++ stateName ++ ". "
    ++ match context with
       | some c => "Called with " ++ c ++ "."
       | none => ""

/-- `InternalModel.send`: look up the handler for the event name on the
current state object; throw the `_unhandledEvent` message when there is
none, otherwise invoke the handler with the block and the context.  Handler
ids stand for the per-state handler functions, and a dispatch is modelled by
the chosen handler id together with the context it receives. -/
def send (selfStr stateName : String) (handlers : List (String × Nat)) (name : String)
    (context : Option String) : Except String (Nat × Option String) :=
  match getKey handlers name with
  | none => Except.error (unhandledEventMessage selfStr stateName name context)
  | some h => Except.ok (h, context)

/-- C4: dispatching an event that the current state has no handler for fails
with an error whose message contains the current state's name, the event
name and, when one was supplied, the context — the event is not silently
ignored; when a handler exists, `send` invokes it with the context and
returns its result. -/
theorem send_unhandled_or_dispatch (selfStr stateName : String)
    (handlers : List (String × Nat)) (name : String) (context : Option String) :
    (getKey handlers name = none →
      send selfStr stateName handlers name context =
        Except.error (unhandledEventMessage selfStr stateName name context) ∧
      stateName.data <:+: (unhandledEventMessage selfStr stateName name context).data ∧
      name.data <:+: (unhandledEventMessage selfStr stateName name context).data ∧
      ∀ c, context = some c →
        c.data <:+: (unhandledEventMessage selfStr stateName name context).data) ∧
    ∀ h, getKey handlers name = some h →
      send selfStr stateName handlers name context = Except.ok (h, context) := by
  constructor
  · intro hn
    refine ⟨by simp [send, hn], ?_, ?_, ?_⟩
    · exact ⟨("Attempted to handle event `" ++ name ++ "` " ++ "on " ++ selfStr
              ++ " while in state ").data,
            (". " ++ match context with
                     | some c => "Called with " ++ c ++ "."
                     | none => "").data,
            by simp [unhandledEventMessage, String.data_append, List.append_assoc]⟩
    · exact ⟨("Attempted to handle event `" : String).data,
            ("` " ++ "on " ++ selfStr ++ " while in state " ++ stateName ++ ". "
              ++ match context with
                 | some c => "Called with " ++ c ++ "."
                 | none => "").data,
            by simp [unhandledEventMessage, String.data_append, List.append_assoc]⟩
    · intro c hc
      subst hc
      exact ⟨("Attempted to handle event `" ++ name ++ "` " ++ "on " ++ selfStr
              ++ " while in state " ++ stateName ++ ". " ++ "Called with ").data,
            ("." : String).data,
            by simp [unhandledEventMessage, String.data_append, List.append_assoc]⟩
  · intro h hh
    simp [send, hh]

/-- Witness for the C4 theorem: a state without an `unloadRecord` handler
throws a message containing the state name; the context case is included. -/
theorem send_unhandled_witness :
    send "<person:1>" "root.loaded.saved" [("didCommit", 3)] "unloadRecord" (some "ctx") =
      Except.error
        (unhandledEventMessage "<person:1>" "root.loaded.saved" "unloadRecord" (some "ctx")) ∧
    ("root.loaded.saved" : String).data <:+:
      (unhandledEventMessage "<person:1>" "root.loaded.saved" "unloadRecord" (some "ctx")).data := by
  have h := (send_unhandled_or_dispatch "<person:1>" "root.loaded.saved" [("didCommit", 3)]
    "unloadRecord" (some "ctx")).1 rfl
  exact ⟨h.1, h.2.1⟩

/-- The flags of the control block's current lifecycle state object that the
block reads through `isNew()` and `isDeleted()`, plus its `stateName`. -/
structure BlockState where
  stateName : String
  isNew : Bool
  isDeleted : Bool
deriving DecidableEq

/-- `RootState.empty`, the state `resetRecord` installs. -/
def rootEmpty : BlockState := ⟨"root.empty", false, false⟩

/-- Calls the control block makes into its collaborators (the facade record,
model data, the store, the run loop), recorded in execution order.  Opaque
`Nat` handles stand for the record, many-array, promise-proxy and timer
objects. -/
inductive Effect where
  | sentEvent (name : String) (payload : Option (String × Bool))
  | notifiedPropertyChange (key : String)
  | destroyedRecord (r : Nat)
  | destroyedManyArray (h : Nat)
  | destroyedPromise (h : Nat)
  | scheduledDestroyCheck (h : Nat)
  | cancelledScheduledDestroy (h : Nat)
  | modelDataUnloaded
  | updatedRecordArrays
  | removedFromIdMap
  | createdRecord (r : Nat)
  | triggeredDeferredTriggers
  | stagedAttribute (key value : String)
  | appliedProperty (name value : String)
  | retrievedLatest (h : Nat)
deriving DecidableEq

/-- The record control block (`InternalModel`).  Field names drop the JS
underscore prefixes: `record` is `_record`, `isDestroyedFlag` is
`_isDestroyed`, `isDematerializing` is `_isDematerializing`,
`scheduledDestroy` is `_scheduledDestroy`, `doNotDestroy` is
`_doNotDestroy`, and the three caches are `_manyArrayCache`,
`_retainedManyArrayCache` and `_relationshipPromisesCache`. -/
structure InternalModel where
  modelName : String
  id : Option String
  currentState : BlockState
  record : Option Nat
  isDestroyedFlag : Bool
  isDestroying : Bool
  isDematerializing : Bool
  scheduledDestroy : Option Nat
  doNotDestroy : Bool
  manyArrayCache : List (String × Nat)
  retainedManyArrayCache : List (String × Nat)
  relationshipPromisesCache : List (String × Nat)
  isError : Bool
  error : Option String
  isReloading : Bool
deriving DecidableEq

/-- The `InternalModel` constructor: no record, not destroyed, not
dematerializing, no scheduled destroy, empty caches, state `root.empty`
(via `resetRecord`). -/
def newInternalModel (modelName : String) (id : Option String) : InternalModel :=
  { modelName := modelName
    id := id
    currentState := rootEmpty
    record := none
    isDestroyedFlag := false
    isDestroying := false
    isDematerializing := false
    scheduledDestroy := none
    doNotDestroy := false
    manyArrayCache := []
    retainedManyArrayCache := []
    relationshipPromisesCache := []
    isError := false
    error := none
    isReloading := false }

/-- `InternalModel.resetRecord`: drop the record handle, clear the reloading
flag and the error, and move to `root.empty`. -/
def resetRecord (m : InternalModel) : InternalModel :=
  { m with record := none, isReloading := false, error := none, currentState := rootEmpty }

/-- `InternalModel.toString`: the `<modelName:id>` template. -/
def imToString (m : InternalModel) : String :=
  "<" ++ m.modelName ++ ":" ++ (match m.id with | some i => i | none => "null") ++ ">"

/-- `InternalModel.getRecord`: when a record already exists, or when the
block is dematerializing, no record is created and no properties are
applied; otherwise initial properties are applied, a record is created from
the model factory (`fresh` is the handle the factory returns) and the
deferred triggers are flushed.  The routing of each initial property through
`setId` and the dirty setters is abstracted into `appliedProperty`
effects. -/
def getRecord (m : InternalModel) (props : Option (List (String × String))) (fresh : Nat) :
    InternalModel × Option Nat × List Effect :=
  match m.record with
  | some r => (m, some r, [])
  | none =>
    if m.isDematerializing then (m, none, [])
    else
      ({ m with record := some fresh }, some fresh,
        (match props with
         | some ps => ps.map (fun p => Effect.appliedProperty p.1 p.2)
         | none => []) ++ [Effect.createdRecord fresh, Effect.triggeredDeferredTriggers])

/-- `InternalModel.getManyArray`: create the many-array on first access
(`fresh` is the handle `ManyArray.create` returns), then destroy and drop a
retained entry for the same key if one exists, and return the cached
array. -/
def getManyArray (m : InternalModel) (key : String) (fresh : Nat) :
    InternalModel × Nat × List Effect :=
  let c :=
    match getKey m.manyArrayCache key with
    | some ma => (m, ma)
    | none => ({ m with manyArrayCache := setKey m.manyArrayCache key fresh }, fresh)
  match getKey c.1.retainedManyArrayCache key with
  | some r =>
    ({ c.1 with retainedManyArrayCache := delKey c.1.retainedManyArrayCache key }, c.2,
      [Effect.destroyedManyArray r])
  | none => (c.1, c.2, [])

/-- `InternalModel.notifyPropertyChange`: notify the record and the record
arrays when a record exists; ask the cached many-array (active or retained)
to drop unloaded members — `didRemoveUnloadedModel` is the value that call
returns — and when the key is in the active cache and a member was removed,
move the array to the retained cache; finally destroy and drop a cached
promise proxy for the key. -/
def notifyPropertyChange (m : InternalModel) (key : String) (didRemoveUnloadedModel : Bool) :
    InternalModel × List Effect :=
  let eff0 : List Effect :=
    if m.record.isSome then [Effect.notifiedPropertyChange key, Effect.updatedRecordArrays]
    else []
  let m1 :=
    match getKey m.manyArrayCache key with
    | some ma =>
      if didRemoveUnloadedModel then
        { m with retainedManyArrayCache := setKey m.retainedManyArrayCache key ma,
                 manyArrayCache := delKey m.manyArrayCache key }
      else m
    | none => m
  match getKey m1.relationshipPromisesCache key with
  | some pr =>
    ({ m1 with relationshipPromisesCache := delKey m1.relationshipPromisesCache key },
      eff0 ++ [Effect.destroyedPromise pr])
  | none => (m1, eff0)

/-- `InternalModel.notifyHasManyChange`: when a record exists, refresh a
cached many-array for the key (`retrieveLatest`), drop the cached promise
proxy when the refreshed array has unloaded members (`anyUnloaded` is what
`manyArray.anyUnloaded()` returns), and update the record arrays. -/
def notifyHasManyChange (m : InternalModel) (key : String) (anyUnloaded : Bool) :
    InternalModel × List Effect :=
  if m.record.isSome then
    match getKey m.manyArrayCache key with
    | some ma =>
      let m1 :=
        if (getKey m.relationshipPromisesCache key).isSome && anyUnloaded then
          { m with relationshipPromisesCache := delKey m.relationshipPromisesCache key }
        else m
      (m1, [Effect.retrievedLatest ma, Effect.updatedRecordArrays])
    | none => (m, [Effect.updatedRecordArrays])
  else (m, [])

/-- `InternalModel.dematerializeRecord`: set `_isDematerializing`, clear
`_doNotDestroy`; when a record exists, destroy and clear the cached promise
proxies, move every many-array into the retained cache and destroy the
record; in every case reset to an empty never-loaded state, unload the model
data and update the record arrays. -/
def dematerializeRecord (m : InternalModel) : InternalModel × List Effect :=
  let m0 := { m with isDematerializing := true, doNotDestroy := false }
  let step : InternalModel × List Effect :=
    match m0.record with
    | some r =>
      ({ m0 with relationshipPromisesCache := [],
                 retainedManyArrayCache := moveAll m0.manyArrayCache m0.retainedManyArrayCache,
                 manyArrayCache := [] },
        (m0.relationshipPromisesCache.map (fun p => Effect.destroyedPromise p.2))
          ++ [Effect.destroyedRecord r])
    | none => (m0, [])
  (resetRecord step.1, step.2 ++ [Effect.modelDataUnloaded, Effect.updatedRecordArrays])

/-- `InternalModel.unloadRecord`: a no-op on a destroyed block; otherwise
send `unloadRecord` (the state handler runs at the collaborator boundary),
dematerialize the record, and schedule the orphan check on the `destroy`
queue unless one is already scheduled (`fresh` is the timer handle the run
loop returns). -/
def unloadRecord (m : InternalModel) (fresh : Nat) : InternalModel × List Effect :=
  if m.isDestroyedFlag then (m, [])
  else
    let d := dematerializeRecord m
    match d.1.scheduledDestroy with
    | some _ => (d.1, Effect.sentEvent "unloadRecord" none :: d.2)
    | none =>
      ({ d.1 with scheduledDestroy := some fresh },
        Effect.sentEvent "unloadRecord" none :: d.2 ++ [Effect.scheduledDestroyCheck fresh])

/-- `InternalModel.hasScheduledDestroy`. -/
def hasScheduledDestroy (m : InternalModel) : Bool :=
  m.scheduledDestroy.isSome

/-- `InternalModel.cancelDestroy`: asserting on an already-destroyed block
is a fatal error; otherwise set `_doNotDestroy`, clear `_isDematerializing`,
cancel the scheduled timer and drop its handle. -/
def cancelDestroy (m : InternalModel) : Except String (InternalModel × List Effect) :=
  if m.isDestroyedFlag then
    Except.error
      "You cannot cancel the destruction of an InternalModel once it has already been destroyed"
  else
    Except.ok
      ({ m with doNotDestroy := true, isDematerializing := false, scheduledDestroy := none },
        match m.scheduledDestroy with
        | some h => [Effect.cancelledScheduledDestroy h]
        | none => [])

/-- `InternalModel._checkForOrphanedInternalModels`: clear the
dematerializing flag and the scheduled-destroy handle, then return (early
when destroyed, and with no further work otherwise). -/
def checkForOrphanedInternalModels (m : InternalModel) : InternalModel × List Effect :=
  ({ m with isDematerializing := false, scheduledDestroy := none }, [])

/-- `InternalModel.destroy`: asserting a materialized live record is fatal
(`recordIsDestroyed` is what `record.get` reports about the record's own
destruction); otherwise mark destroying, destroy and clear every retained
many-array, remove the block from the identity map and mark it
destroyed. -/
def destroy (m : InternalModel) (recordIsDestroyed : Bool) :
    Except String (InternalModel × List Effect) :=
  if m.record.isSome && !recordIsDestroyed then
    Except.error "Cannot destroy an internalModel while its record is materialized"
  else
    Except.ok
      ({ m with isDestroying := true, retainedManyArrayCache := [], isDestroyedFlag := true },
        (m.retainedManyArrayCache.map (fun p => Effect.destroyedManyArray p.2))
          ++ [Effect.removedFromIdMap])

/-- `InternalModel.destroyFromModelData`: honour a pending `_doNotDestroy`
cancellation, else destroy. -/
def destroyFromModelData (m : InternalModel) (recordIsDestroyed : Bool) :
    Except String (InternalModel × List Effect) :=
  if m.doNotDestroy then Except.ok ({ m with doNotDestroy := false }, [])
  else destroy m recordIsDestroyed

/-- `InternalModel.destroySync`: cancel a pending scheduled destroy when
dematerializing, run the orphan check immediately, then destroy unless
already destroyed or destroying. -/
def destroySync (m : InternalModel) (recordIsDestroyed : Bool) :
    Except String (InternalModel × List Effect) :=
  match (if m.isDematerializing then cancelDestroy m else Except.ok (m, [])) with
  | Except.error e => Except.error e
  | Except.ok me =>
    let c := checkForOrphanedInternalModels me.1
    if c.1.isDestroyedFlag || c.1.isDestroying then Except.ok (c.1, me.2 ++ c.2)
    else
      match destroy c.1 recordIsDestroyed with
      | Except.error e => Except.error e
      | Except.ok de => Except.ok (de.1, me.2 ++ c.2 ++ de.2)

/-- `InternalModel.setId`: asserting is fatal unless the id is unset, equal
to the new id, or the block's state is new; on an actual change with a
materialized record, notify the record's `id` property. -/
def setId (m : InternalModel) (newId : Option String) :
    Except String (InternalModel × List Effect) :=
  if m.id = none ∨ m.id = newId ∨ m.currentState.isNew = true then
    Except.ok ({ m with id := newId },
      if newId ≠ m.id ∧ m.record.isSome = true then [Effect.notifiedPropertyChange "id"]
      else [])
  else
    Except.error "A record's id cannot be changed once it is in the loaded state"

/-- `InternalModel.setDirtyAttribute`: throws on a deleted record; otherwise
compares the new value against `_modelData.getAttr(key)` (`currentValue`),
doing nothing when they are equal, and otherwise staging the value in model
data and sending `didSetProperty` with the key and the dirty flag model data
then reports (`isDirtyAfter` is what `isAttrDirty` returns). -/
def setDirtyAttribute (m : InternalModel) (key value : String) (currentValue : Option String)
    (isDirtyAfter : Bool) : Except String (InternalModel × List Effect) :=
  if m.currentState.isDeleted then
    Except.error ("Attempted to set '" ++ key ++ "' to '" ++ value
      ++ "' on the deleted record " ++ imToString m)
  else if currentValue = some value then
    Except.ok (m, [])
  else
    Except.ok (m, [Effect.stagedAttribute key value,
      Effect.sentEvent "didSetProperty" (some (key, isDirtyAfter))])

theorem getKey_delKey (l : List (String × Nat)) (k j : String) :
    getKey (delKey l k) j = if j = k then none else getKey l j := by
  induction l with
  | nil => simp [delKey, getKey]
  | cons p rest ih =>
    by_cases hp : p.1 = k
    · by_cases hj : j = k
      · subst hj
        simp [delKey, getKey, hp, ih]
      · have hkj : ¬ k = j := fun hh => hj hh.symm
        simp [delKey, getKey, hp, hj, hkj, ih]
    · by_cases hpj : p.1 = j
      · have hj : ¬ j = k := fun hh => hp (by rw [hpj, hh])
        simp [delKey, getKey, hp, hpj, hj]
      · simp [delKey, getKey, hp, hpj, ih]

theorem hasKey_delKey (l : List (String × Nat)) (k j : String) :
    hasKey (delKey l k) j = if j = k then false else hasKey l j := by
  simp only [hasKey, getKey_delKey]
  split <;> simp

theorem getKey_setKey (l : List (String × Nat)) (k j : String) (v : Nat) :
    getKey (setKey l k v) j = if j = k then some v else getKey l j := by
  by_cases hj : j = k
  · subst hj
    simp [setKey, getKey]
  · have hkj : ¬ k = j := fun hh => hj hh.symm
    simp [setKey, getKey, hj, hkj, getKey_delKey]

theorem hasKey_setKey (l : List (String × Nat)) (k j : String) (v : Nat) :
    hasKey (setKey l k v) j = if j = k then true else hasKey l j := by
  simp only [hasKey, getKey_setKey]
  split <;> simp

theorem hasKey_cons (p : String × Nat) (l : List (String × Nat)) (j : String) :
    hasKey (p :: l) j = if p.1 = j then true else hasKey l j := by
  simp only [hasKey, getKey]
  split <;> simp

theorem hasKey_moveAll (src dst : List (String × Nat)) (j : String) :
    hasKey (moveAll src dst) j = (hasKey src j || hasKey dst j) := by
  induction src generalizing dst with
  | nil => simp [moveAll, hasKey, getKey]
  | cons p src ih =>
    have hstep : moveAll (p :: src) dst = moveAll src (setKey dst p.1 p.2) := rfl
    rw [hstep, ih, hasKey_setKey, hasKey_cons]
    by_cases hj : j = p.1
    · subst hj
      simp
    · have hpj : ¬ p.1 = j := fun hh => hj hh.symm
      simp [hj, hpj]

/-- The claim-C3 invariant: a relationship key is present in at most one of
the active many-array cache and the retained many-array cache. -/
def cacheDisjoint (m : InternalModel) : Prop :=
  ∀ k, hasKey m.manyArrayCache k = true → hasKey m.retainedManyArrayCache k = false

/-- One public operation on a control block, together with the oracle inputs
its collaborators supply during the call. -/
inductive Step : InternalModel → InternalModel → Prop
  | getRecordStep (m props fresh) : Step m (getRecord m props fresh).1
  | getManyArrayStep (m k fresh) : Step m (getManyArray m k fresh).1
  | notifyPropertyChangeStep (m k dr) : Step m (notifyPropertyChange m k dr).1
  | notifyHasManyChangeStep (m k au) : Step m (notifyHasManyChange m k au).1
  | dematerializeStep (m) : Step m (dematerializeRecord m).1
  | unloadStep (m fresh) : Step m (unloadRecord m fresh).1
  | checkOrphansStep (m) : Step m (checkForOrphanedInternalModels m).1
  | cancelStep (m m' effs) : cancelDestroy m = Except.ok (m', effs) → Step m m'
  | destroyStep (m rd m' effs) : destroy m rd = Except.ok (m', effs) → Step m m'
  | destroyFromModelDataStep (m rd m' effs) :
      destroyFromModelData m rd = Except.ok (m', effs) → Step m m'
  | destroySyncStep (m rd m' effs) : destroySync m rd = Except.ok (m', effs) → Step m m'
  | setIdStep (m i m' effs) : setId m i = Except.ok (m', effs) → Step m m'
  | setDirtyAttributeStep (m k v cv d m' effs) :
      setDirtyAttribute m k v cv d = Except.ok (m', effs) → Step m m'

/-- Control-block states reachable from construction through the public
operations. -/
inductive Reachable : InternalModel → Prop
  | init (modelName : String) (id : Option String) : Reachable (newInternalModel modelName id)
  | step {m m'} : Reachable m → Step m m' → Reachable m'

theorem getRecord_caches (m : InternalModel) (props : Option (List (String × String)))
    (fresh : Nat) :
    (getRecord m props fresh).1.manyArrayCache = m.manyArrayCache ∧
    (getRecord m props fresh).1.retainedManyArrayCache = m.retainedManyArrayCache := by
  cases hr : m.record with
  | some r => simp [getRecord, hr]
  | none => by_cases hd : m.isDematerializing = true <;> simp [getRecord, hr, hd]

theorem getManyArray_caches (m : InternalModel) (k : String) (fresh : Nat) :
    (getManyArray m k fresh).1.manyArrayCache =
      (if hasKey m.manyArrayCache k then m.manyArrayCache
       else setKey m.manyArrayCache k fresh) ∧
    (getManyArray m k fresh).1.retainedManyArrayCache =
      (if hasKey m.retainedManyArrayCache k then delKey m.retainedManyArrayCache k
       else m.retainedManyArrayCache) := by
  cases ha : getKey m.manyArrayCache k <;> cases hr : getKey m.retainedManyArrayCache k <;>
    simp [getManyArray, ha, hr, hasKey]

theorem notifyPropertyChange_caches (m : InternalModel) (k : String) (dr : Bool) :
    ((notifyPropertyChange m k dr).1.manyArrayCache =
        (if hasKey m.manyArrayCache k && dr then delKey m.manyArrayCache k
         else m.manyArrayCache)) ∧
    (notifyPropertyChange m k dr).1.retainedManyArrayCache =
      (match getKey m.manyArrayCache k, dr with
       | some ma, true => setKey m.retainedManyArrayCache k ma
       | _, _ => m.retainedManyArrayCache) := by
  cases ha : getKey m.manyArrayCache k <;> cases dr <;>
    cases hp : getKey m.relationshipPromisesCache k <;>
    simp [notifyPropertyChange, ha, hp, hasKey]

theorem notifyHasManyChange_caches (m : InternalModel) (k : String) (au : Bool) :
    (notifyHasManyChange m k au).1.manyArrayCache = m.manyArrayCache ∧
    (notifyHasManyChange m k au).1.retainedManyArrayCache = m.retainedManyArrayCache := by
  by_cases hr : m.record.isSome = true
  · cases ha : getKey m.manyArrayCache k with
    | none => simp [notifyHasManyChange, hr, ha]
    | some ma =>
      by_cases hp : ((getKey m.relationshipPromisesCache k).isSome && au) = true <;>
        simp [notifyHasManyChange, hr, ha, hp]
  · simp [notifyHasManyChange, hr]

theorem dematerializeRecord_caches (m : InternalModel) :
    (dematerializeRecord m).1.manyArrayCache =
      (if m.record.isSome then [] else m.manyArrayCache) ∧
    (dematerializeRecord m).1.retainedManyArrayCache =
      (if m.record.isSome then moveAll m.manyArrayCache m.retainedManyArrayCache
       else m.retainedManyArrayCache) := by
  cases hr : m.record <;> simp [dematerializeRecord, resetRecord, hr]

theorem cacheDisjoint_getManyArray (m : InternalModel) (k : String) (fresh : Nat)
    (h : cacheDisjoint m) : cacheDisjoint (getManyArray m k fresh).1 := by
  obtain ⟨hac, hrc⟩ := getManyArray_caches m k fresh
  intro j hj
  rw [hac] at hj
  rw [hrc]
  by_cases hjk : j = k
  · subst hjk
    split
    · rw [hasKey_delKey]
      simp
    · next hnr => simpa using hnr
  · have hmj : hasKey m.manyArrayCache j = true := by
      by_cases hm : hasKey m.manyArrayCache k = true
      · rwa [if_pos hm] at hj
      · rw [if_neg hm, hasKey_setKey, if_neg hjk] at hj
        exact hj
    have hret := h j hmj
    split
    · rw [hasKey_delKey, if_neg hjk]
      exact hret
    · exact hret

theorem cacheDisjoint_notifyPropertyChange (m : InternalModel) (k : String) (dr : Bool)
    (h : cacheDisjoint m) : cacheDisjoint (notifyPropertyChange m k dr).1 := by
  obtain ⟨hac, hrc⟩ := notifyPropertyChange_caches m k dr
  intro j hj
  rw [hac] at hj
  rw [hrc]
  cases ha : getKey m.manyArrayCache k with
  | none =>
    have hna : hasKey m.manyArrayCache k = false := by simp [hasKey, ha]
    rw [hna] at hj
    simp only [Bool.false_and, if_false] at hj
    cases dr <;> simp only [] <;> exact h j hj
  | some ma =>
    cases dr with
    | false =>
      simp only [Bool.and_false, if_false] at hj
      exact h j hj
    | true =>
      have hha : hasKey m.manyArrayCache k = true := by simp [hasKey, ha]
      rw [hha] at hj
      simp only [Bool.true_and, if_true] at hj
      rw [hasKey_delKey] at hj
      simp only []
      rw [hasKey_setKey]
      by_cases hjk : j = k
      · rw [if_pos hjk] at hj
        exact absurd hj (by simp)
      · rw [if_neg hjk] at hj
        rw [if_neg hjk]
        exact h j hj

theorem cacheDisjoint_dematerialize (m : InternalModel) (h : cacheDisjoint m) :
    cacheDisjoint (dematerializeRecord m).1 := by
  obtain ⟨hac, hrc⟩ := dematerializeRecord_caches m
  intro j hj
  rw [hac] at hj
  rw [hrc]
  by_cases hrs : m.record.isSome = true
  · rw [if_pos hrs] at hj
    simp [hasKey, getKey] at hj
  · rw [if_neg hrs] at hj
    rw [if_neg hrs]
    exact h j hj

theorem cacheDisjoint_unload (m : InternalModel) (fresh : Nat) (h : cacheDisjoint m) :
    cacheDisjoint (unloadRecord m fresh).1 := by
  by_cases hd : m.isDestroyedFlag = true
  · simp only [unloadRecord, if_pos hd]
    exact h
  · have h2 := cacheDisjoint_dematerialize m h
    cases hs : (dematerializeRecord m).1.scheduledDestroy with
    | some x =>
      simp only [unloadRecord, if_neg hd, hs]
      exact h2
    | none =>
      simp only [unloadRecord, if_neg hd, hs]
      intro j hj
      exact h2 j hj

theorem cacheDisjoint_destroy (m : InternalModel) (rd : Bool) (m' : InternalModel)
    (effs : List Effect) (h : destroy m rd = Except.ok (m', effs)) : cacheDisjoint m' := by
  simp only [destroy] at h
  split at h
  · simp at h
  · injection h with h
    injection h with h1 h2
    intro j hj
    rw [← h1]
    simp [hasKey, getKey]

theorem cacheDisjoint_destroySync (m : InternalModel) (rd : Bool) (m' : InternalModel)
    (effs : List Effect) (h : destroySync m rd = Except.ok (m', effs))
    (hm : cacheDisjoint m) : cacheDisjoint m' := by
  simp only [destroySync] at h
  split at h
  · simp at h
  · next me heq =>
    have hm1 : cacheDisjoint me.1 := by
      split at heq
      · simp only [cancelDestroy] at heq
        split at heq
        · simp at heq
        · injection heq with heq
          subst heq
          intro j hj
          exact hm j hj
      · injection heq with heq
        subst heq
        intro j hj
        exact hm j hj
    split at h
    · injection h with h
      injection h with h1 h2
      intro j hj
      rw [← h1] at hj ⊢
      exact hm1 j hj
    · split at h
      · simp at h
      · next de hdes =>
        injection h with h
        injection h with h1 h2
        intro j hj
        rw [← h1] at hj ⊢
        exact cacheDisjoint_destroy _ rd de.1 de.2 hdes j hj

/-- C3: every control block reachable through the public operations keeps
each relationship key in at most one of the active many-array cache and the
retained many-array cache — never in both. -/
theorem reachable_cacheDisjoint (m : InternalModel) (h : Reachable m) : cacheDisjoint m := by
  induction h with
  | init name i =>
    intro k hk
    simp [newInternalModel, hasKey, getKey] at hk
  | @step m m' hr hs ih =>
    cases hs with
    | getRecordStep props fresh =>
      intro j hj
      rw [(getRecord_caches m props fresh).2]
      rw [(getRecord_caches m props fresh).1] at hj
      exact ih j hj
    | getManyArrayStep k fresh => exact cacheDisjoint_getManyArray m k fresh ih
    | notifyPropertyChangeStep k dr => exact cacheDisjoint_notifyPropertyChange m k dr ih
    | notifyHasManyChangeStep k au =>
      intro j hj
      rw [(notifyHasManyChange_caches m k au).2]
      rw [(notifyHasManyChange_caches m k au).1] at hj
      exact ih j hj
    | dematerializeStep => exact cacheDisjoint_dematerialize m ih
    | unloadStep fresh => exact cacheDisjoint_unload m fresh ih
    | checkOrphansStep =>
      intro j hj
      exact ih j hj
    | cancelStep mm effs heq =>
      simp only [cancelDestroy] at heq
      split at heq
      · simp at heq
      · injection heq with heq
        injection heq with h1 h2
        intro j hj
        rw [← h1] at hj ⊢
        exact ih j hj
    | destroyStep rd mm effs heq => exact cacheDisjoint_destroy _ rd _ effs heq
    | destroyFromModelDataStep rd mm effs heq =>
      simp only [destroyFromModelData] at heq
      split at heq
      · injection heq with heq
        injection heq with h1 h2
        intro j hj
        rw [← h1] at hj ⊢
        exact ih j hj
      · exact cacheDisjoint_destroy _ rd _ effs heq
    | destroySyncStep rd mm effs heq => exact cacheDisjoint_destroySync _ rd _ effs heq ih
    | setIdStep i mm effs heq =>
      simp only [setId] at heq
      split at heq
      · injection heq with heq
        injection heq with h1 h2
        intro j hj
        rw [← h1] at hj ⊢
        exact ih j hj
      · simp at heq
    | setDirtyAttributeStep k v cv d mm effs heq =>
      simp only [setDirtyAttribute] at heq
      split at heq
      · simp at heq
      · split at heq <;>
          · injection heq with heq
            injection heq with h1 h2
            intro j hj
            rw [← h1] at hj ⊢
            exact ih j hj

/-- Witness for the C3 theorem: a concrete reachable block (a fresh block
whose `comments` many-array was just materialized) keeps `comments` out of
the retained cache. -/
theorem reachable_cacheDisjoint_witness :
    hasKey (getManyArray (newInternalModel "person" (some "1")) "comments" 5).1.manyArrayCache
        "comments" = true ∧
    hasKey (getManyArray (newInternalModel "person" (some "1")) "comments"
        5).1.retainedManyArrayCache "comments" = false := by
  have h := reachable_cacheDisjoint _
    (Reachable.step (Reachable.init "person" (some "1"))
      (Step.getManyArrayStep (newInternalModel "person" (some "1")) "comments" 5))
  exact ⟨by rfl, h "comments" (by rfl)⟩

/-- C5: `setId` fails with the identity-conflict error unless the current id
is unset, unchanged, or the block's state is new; when the id actually
changes and a record is materialized the record's `id` property is
notified, and when the id is unchanged no notification happens. -/
theorem setId_spec (m : InternalModel) (newId : Option String) :
    (m.id ≠ none → m.id ≠ newId → m.currentState.isNew = false →
      setId m newId =
        Except.error "A record's id cannot be changed once it is in the loaded state") ∧
    (m.id = none ∨ m.id = newId ∨ m.currentState.isNew = true →
      (setId m newId).isOk = true ∧
      (∀ m' effs, setId m newId = Except.ok (m', effs) → m'.id = newId) ∧
      (newId = m.id → setId m newId = Except.ok ({ m with id := newId }, [])) ∧
      (newId ≠ m.id → m.record.isSome = true →
        setId m newId =
          Except.ok ({ m with id := newId }, [Effect.notifiedPropertyChange "id"])) ∧
      (newId ≠ m.id → m.record.isSome = false →
        setId m newId = Except.ok ({ m with id := newId }, []))) := by
  constructor
  · intro h1 h2 h3
    have hno : ¬(m.id = none ∨ m.id = newId ∨ m.currentState.isNew = true) := by
      intro hor
      rcases hor with h | h | h
      · exact h1 h
      · exact h2 h
      · rw [h3] at h
        exact Bool.false_ne_true h
    simp only [setId]
    rw [if_neg hno]
  · intro hok
    have hsome : setId m newId = Except.ok ({ m with id := newId },
        if newId ≠ m.id ∧ m.record.isSome = true then [Effect.notifiedPropertyChange "id"]
        else []) := by
      simp only [setId]
      rw [if_pos hok]
    refine ⟨by rw [hsome]; rfl, ?_, ?_, ?_, ?_⟩
    · intro m' effs he
      rw [hsome] at he
      injection he with he
      injection he with he1 he2
      rw [← he1]
    · intro heq
      rw [hsome, if_neg (fun hc => hc.1 heq)]
    · intro hne hrec
      rw [hsome, if_pos ⟨hne, hrec⟩]
    · intro hne hrec
      rw [hsome, if_neg (fun hc => by rw [hrec] at hc; exact Bool.false_ne_true hc.2)]

/-- Witness for the C5 theorem: the spec's scenario — `setId` from a null id
on a materialized block succeeds and notifies `id`; `setId` to a different
id on the now-persisted (non-new) block fails. -/
theorem setId_spec_witness :
    setId { newInternalModel "person" none with record := some 7 } (some "5") =
      Except.ok ({ newInternalModel "person" none with record := some 7, id := some "5" },
        [Effect.notifiedPropertyChange "id"]) ∧
    setId { newInternalModel "person" (some "5") with record := some 7 } (some "6") =
      Except.error "A record's id cannot be changed once it is in the loaded state" := by
  constructor
  · exact ((setId_spec { newInternalModel "person" none with record := some 7 }
      (some "5")).2 (Or.inl rfl)).2.2.2.1 (by decide) rfl
  · exact (setId_spec { newInternalModel "person" (some "5") with record := some 7 }
      (some "6")).1 (by decide) (by decide) rfl

/-- A block sitting in a deleted lifecycle state, used for the C6 theorems. -/
def mDeleted : InternalModel :=
  { newInternalModel "person" (some "1") with currentState := ⟨"root.deleted.saved", false, true⟩ }

/-- C6 counterexample: on a deleted block, `setDirtyAttribute` with a value
equal to the stored one is not a no-op — the deleted-record check runs
before the equality check and throws. -/
theorem setDirtyAttribute_deleted_equal_not_noop :
    mDeleted.currentState.isDeleted = true ∧
    setDirtyAttribute mDeleted "name" "x" (some "x") false ≠ Except.ok (mDeleted, []) := by
  refine ⟨rfl, ?_⟩
  intro h
  simp [setDirtyAttribute, mDeleted, newInternalModel] at h

/-- C6 (amended): the deleted-state check runs first — `setDirtyAttribute`
on a deleted block throws even when the new value equals the stored one; on
a live block it is a no-op when the value is unchanged, and otherwise it
stages the value in model data and sends `didSetProperty` with the key and
the resulting dirty flag. -/
theorem setDirtyAttribute_spec (m : InternalModel) (key value : String)
    (currentValue : Option String) (isDirtyAfter : Bool) :
    (m.currentState.isDeleted = true →
      setDirtyAttribute m key value currentValue isDirtyAfter =
        Except.error ("Attempted to set '" ++ key ++ "' to '" ++ value
          ++ "' on the deleted record " ++ imToString m)) ∧
    (m.currentState.isDeleted = false → currentValue = some value →
      setDirtyAttribute m key value currentValue isDirtyAfter = Except.ok (m, [])) ∧
    (m.currentState.isDeleted = false → currentValue ≠ some value →
      setDirtyAttribute m key value currentValue isDirtyAfter =
        Except.ok (m, [Effect.stagedAttribute key value,
          Effect.sentEvent "didSetProperty" (some (key, isDirtyAfter))])) := by
  refine ⟨fun h1 => ?_, fun h1 h2 => ?_, fun h1 h2 => ?_⟩
  · simp [setDirtyAttribute, h1]
  · simp [setDirtyAttribute, h1, h2]
  · simp [setDirtyAttribute, h1, h2]

/-- Witness for the C6 amended theorem: a live block no-ops on an unchanged
value, a deleted block throws on a changed one. -/
theorem setDirtyAttribute_spec_witness :
    setDirtyAttribute (newInternalModel "person" (some "1")) "name" "x" (some "x") false =
      Except.ok (newInternalModel "person" (some "1"), []) ∧
    setDirtyAttribute mDeleted "name" "x" (some "y") false =
      Except.error ("Attempted to set '" ++ "name" ++ "' to '" ++ "x"
        ++ "' on the deleted record " ++ imToString mDeleted) := by
  constructor
  · exact (setDirtyAttribute_spec (newInternalModel "person" (some "1")) "name" "x"
      (some "x") false).2.1 rfl rfl
  · exact (setDirtyAttribute_spec mDeleted "name" "x" (some "y") false).1 rfl

theorem dematerializeRecord_fields (m : InternalModel) :
    (dematerializeRecord m).1.scheduledDestroy = m.scheduledDestroy ∧
    (dematerializeRecord m).1.record = none ∧
    (dematerializeRecord m).1.isDematerializing = true := by
  cases hr : m.record <;> simp [dematerializeRecord, resetRecord, hr]

/-- C7 (amended): on a non-destroyed block, `unloadRecord` first sends the
`unloadRecord` event, then dematerializes — when a record is present it is
destroyed and every active many-array entry moves to the retained cache,
while when no record is present the two caches are left untouched — and
finally schedules the orphan-check destroy pass unless one is already
scheduled, so at most one scheduled destroy ever exists. -/
theorem unloadRecord_spec (m : InternalModel) (fresh : Nat)
    (hd : m.isDestroyedFlag = false) :
    (∃ rest, (unloadRecord m fresh).2 = Effect.sentEvent "unloadRecord" none :: rest) ∧
    (∀ r, m.record = some r →
      (unloadRecord m fresh).1.manyArrayCache = [] ∧
      (∀ k, hasKey (unloadRecord m fresh).1.retainedManyArrayCache k =
        (hasKey m.manyArrayCache k || hasKey m.retainedManyArrayCache k)) ∧
      Effect.destroyedRecord r ∈ (unloadRecord m fresh).2 ∧
      (unloadRecord m fresh).1.record = none) ∧
    (m.record = none →
      (unloadRecord m fresh).1.manyArrayCache = m.manyArrayCache ∧
      (unloadRecord m fresh).1.retainedManyArrayCache = m.retainedManyArrayCache ∧
      ∀ r, Effect.destroyedRecord r ∉ (unloadRecord m fresh).2) ∧
    (m.scheduledDestroy = none →
      (unloadRecord m fresh).1.scheduledDestroy = some fresh ∧
      Effect.scheduledDestroyCheck fresh ∈ (unloadRecord m fresh).2) ∧
    (∀ h0, m.scheduledDestroy = some h0 →
      (unloadRecord m fresh).1.scheduledDestroy = some h0 ∧
      ∀ h1, Effect.scheduledDestroyCheck h1 ∉ (unloadRecord m fresh).2) := by
  have hif : (unloadRecord m fresh) =
      (match (dematerializeRecord m).1.scheduledDestroy with
       | some _ => ((dematerializeRecord m).1,
           Effect.sentEvent "unloadRecord" none :: (dematerializeRecord m).2)
       | none => ({ (dematerializeRecord m).1 with scheduledDestroy := some fresh },
           Effect.sentEvent "unloadRecord" none :: (dematerializeRecord m).2
             ++ [Effect.scheduledDestroyCheck fresh])) := by
    simp only [unloadRecord, hd, Bool.false_eq_true, if_false]
  have hsch := (dematerializeRecord_fields m).1
  refine ⟨?_, ?_, ?_, ?_, ?_⟩
  · rw [hif]
    cases hs : (dematerializeRecord m).1.scheduledDestroy <;> simp
  · intro r hr
    rw [hif]
    cases hs : (dematerializeRecord m).1.scheduledDestroy <;>
      · simp only []
        refine ⟨?_, ?_, ?_, ?_⟩ <;>
          simp [dematerializeRecord, resetRecord, hr, hasKey_moveAll]
  · intro hr
    rw [hif]
    cases hs : (dematerializeRecord m).1.scheduledDestroy <;>
      · simp only []
        refine ⟨?_, ?_, ?_⟩ <;> simp [dematerializeRecord, resetRecord, hr]
  · intro hn
    rw [hn] at hsch
    rw [hif, hsch]
    simp
  · intro h0 hs0
    rw [hs0] at hsch
    rw [hif, hsch]
    simp only []
    refine ⟨hsch, ?_⟩
    intro h1
    cases hr : m.record <;> simp [dematerializeRecord, resetRecord, hr]

/-- C7 counterexample: a reachable non-destroyed block with no record but a
populated many-array cache (its many-array was materialized through a
has-many reference, never through a record) — `unloadRecord` leaves the
entry in the active cache and moves nothing into the retained cache. -/
theorem unloadRecord_no_record_keeps_active_cache :
    (getManyArray (newInternalModel "person" (some "1")) "comments" 7).1.isDestroyedFlag
        = false ∧
    (getManyArray (newInternalModel "person" (some "1")) "comments" 7).1.record = none ∧
    hasKey (getManyArray (newInternalModel "person" (some "1")) "comments"
        7).1.manyArrayCache "comments" = true ∧
    hasKey (unloadRecord (getManyArray (newInternalModel "person" (some "1")) "comments"
        7).1 9).1.manyArrayCache "comments" = true ∧
    hasKey (unloadRecord (getManyArray (newInternalModel "person" (some "1")) "comments"
        7).1 9).1.retainedManyArrayCache "comments" = false :=
  ⟨rfl, rfl, rfl, rfl, rfl⟩

/-- Witness for the C7 amended theorem at a fresh block. -/
theorem unloadRecord_spec_witness :
    (∃ rest, (unloadRecord (newInternalModel "person" (some "1")) 9).2 =
      Effect.sentEvent "unloadRecord" none :: rest) ∧
    (unloadRecord (newInternalModel "person" (some "1")) 9).1.scheduledDestroy = some 9 := by
  have h := unloadRecord_spec (newInternalModel "person" (some "1")) 9 rfl
  exact ⟨h.1, (h.2.2.2.1 rfl).1⟩

/-- C8: materialization is idempotent — once a `getRecord` call has yielded
a record and the block is not dematerializing, a further `getRecord` call
returns the very same record handle, performs no collaborator call (no
creation, no property application) and leaves the block unchanged. -/
theorem getRecord_idempotent (m : InternalModel) (p1 p2 : Option (List (String × String)))
    (f1 f2 r : Nat) (h1 : ((getRecord m p1 f1).2).1 = some r)
    (hd : (getRecord m p1 f1).1.isDematerializing = false) :
    getRecord (getRecord m p1 f1).1 p2 f2 = ((getRecord m p1 f1).1, some r, []) := by
  cases hr : m.record with
  | some r0 =>
    have e1 : getRecord m p1 f1 = (m, some r0, []) := by simp [getRecord, hr]
    rw [e1] at h1 ⊢
    simp only [] at h1
    injection h1 with h1
    subst h1
    simp [getRecord, hr]
  | none =>
    by_cases hdm : m.isDematerializing = true
    · have e1 : getRecord m p1 f1 = (m, none, []) := by simp [getRecord, hr, hdm]
      rw [e1] at h1
      simp at h1
    · have e2 : ((getRecord m p1 f1).2).1 = some f1 := by simp [getRecord, hr, hdm]
      have e4 : (getRecord m p1 f1).1 = { m with record := some f1 } := by
        simp [getRecord, hr, hdm]
      rw [e2] at h1
      injection h1 with h1
      subst h1
      rw [e4]
      simp [getRecord]

/-- Witness for the C8 theorem: the first call creates record 4, the second
returns the same handle with no effects. -/
theorem getRecord_idempotent_witness :
    getRecord (getRecord (newInternalModel "person" (some "1")) none 4).1 none 5 =
      ((getRecord (newInternalModel "person" (some "1")) none 4).1, some 4, []) :=
  getRecord_idempotent (newInternalModel "person" (some "1")) none none 4 5 4 rfl rfl

/-- C9: `unloadRecord` on an already-destroyed block returns immediately —
no event sent, no effect, block unchanged — whereas `cancelDestroy` on the
same block raises the fatal cancellation error. -/
theorem unloadRecord_destroyed_noop (m : InternalModel) (fresh : Nat)
    (h : m.isDestroyedFlag = true) :
    unloadRecord m fresh = (m, []) ∧
    cancelDestroy m =
      Except.error
        "You cannot cancel the destruction of an InternalModel once it has already been destroyed" := by
  constructor <;> simp [unloadRecord, cancelDestroy, h]

/-- A destroyed block used in the C9 witness. -/
def mDestroyed : InternalModel :=
  { newInternalModel "person" (some "1") with isDestroyedFlag := true }

/-- Witness for the C9 theorem on a concrete destroyed block. -/
theorem unloadRecord_destroyed_noop_witness :
    unloadRecord mDestroyed 3 = (mDestroyed, []) :=
  (unloadRecord_destroyed_noop mDestroyed 3 rfl).1

/-- C10: the scheduled orphan-check pass only clears the dematerializing
flag and the scheduled-destroy handle — it performs no collaborator call,
never marks the block destroyed, never destroys retained collections, never
touches any cache or the record, and never removes the block from the
identity map. -/
theorem checkForOrphaned_frame (m : InternalModel) :
    (checkForOrphanedInternalModels m).1.isDematerializing = false ∧
    (checkForOrphanedInternalModels m).1.scheduledDestroy = none ∧
    (checkForOrphanedInternalModels m).1.isDestroyedFlag = m.isDestroyedFlag ∧
    (checkForOrphanedInternalModels m).1.isDestroying = m.isDestroying ∧
    (checkForOrphanedInternalModels m).1.record = m.record ∧
    (checkForOrphanedInternalModels m).1.id = m.id ∧
    (checkForOrphanedInternalModels m).1.modelName = m.modelName ∧
    (checkForOrphanedInternalModels m).1.currentState = m.currentState ∧
    (checkForOrphanedInternalModels m).1.manyArrayCache = m.manyArrayCache ∧
    (checkForOrphanedInternalModels m).1.retainedManyArrayCache
        = m.retainedManyArrayCache ∧
    (checkForOrphanedInternalModels m).1.relationshipPromisesCache
        = m.relationshipPromisesCache ∧
    (checkForOrphanedInternalModels m).1.doNotDestroy = m.doNotDestroy ∧
    (checkForOrphanedInternalModels m).1.isError = m.isError ∧
    (checkForOrphanedInternalModels m).1.error = m.error ∧
    (checkForOrphanedInternalModels m).1.isReloading = m.isReloading ∧
    (checkForOrphanedInternalModels m).2 = [] := by
  simp [checkForOrphanedInternalModels]

end EmberData
